import Mathlib

/-!
Verification development for the vector-distinctness estimator repository.

The embedded program consists of (see `analytic_01.py`):
* `probability_distance_less_than D min_distance` — the binomial-tail
  probability that two random `D`-dimensional bipolar vectors have Hamming
  distance strictly below `min_distance` (the spec's `tailProbability`);
* the forward mode of `probability_all_vectors_min_distance` — the
  union-bound success estimate (the spec's `estimateSuccessProbability`);
* the inverse mode of `probability_all_vectors_min_distance` — a binary
  search on `[min_distance, 1000]` for the least dimension reaching a target
  probability (the spec's `requiredDimension`);
* `calculate_required_dimensions` — the sweep over grids of parameters;

and (see `sample.py` / `sample_2.py`) the two per-trial success checks of the
Monte Carlo validator: deduplication via a set of coordinate tuples, and the
exhaustive pairwise Hamming-distance check.

Python float arithmetic is embedded as exact rational arithmetic over `ℚ`;
Python integers as `ℤ`/`ℕ`; the Python `while` loop of the binary search as a
fuel-indexed structural recursion (`searchLoopF`), with the fuel `1002`
sufficient because the search interval `[min_distance, 1000]` shrinks by at
least one element per iteration.
-/

/-- Embeds `probability_distance_less_than(D, min_distance)` from
`analytic_01.py`: the sum `Σ_{k=0}^{min_distance-1} comb(D, k) * 0.5**D`,
as an exact rational. -/
def probability_distance_less_than (D min_distance : ℕ) : ℚ :=
  ∑ k in Finset.range min_distance, (D.choose k : ℚ) * (1 / 2) ^ D

/-- Embeds the forward mode of `probability_all_vectors_min_distance` from
`analytic_01.py` (the branch taken when `success_probability is None`):
`num_pairs = comb(N, 2)`, `p_too_close = probability_distance_less_than(D,
min_distance)`, returning `max(0, 1 - num_pairs * p_too_close)`.  This is the
spec's `estimateSuccessProbability`. -/
def estimateSuccessProbability (N D min_distance : ℕ) : ℚ :=
  max 0 (1 - (N.choose 2 : ℚ) * probability_distance_less_than D min_distance)

/-- Embeds the `while low_D <= high_D` loop of the inverse mode of
`probability_all_vectors_min_distance` from `analytic_01.py`.  Each iteration
computes `mid_D = (low_D + high_D) // 2` (Python floor division is
`Int.fdiv`), then `prob = 1 - (N * (N-1) / 2) *
probability_distance_less_than(mid_D, min_distance)`, and narrows to
`[low_D, mid_D - 1]` when `prob >= success_probability`, else to
`[mid_D + 1, high_D]`; when the window is empty it returns `low_D`.  The
first argument is fuel making the recursion structural; on every reachable
call `mid_D` is nonnegative, so `Int.toNat` is exact. -/
def searchLoopF (N min_distance : ℕ) (success_probability : ℚ) :
    ℕ → ℤ → ℤ → ℤ
  | 0, low_D, _ => low_D
  | fuel + 1, low_D, high_D =>
    if low_D ≤ high_D then
      if success_probability ≤
          1 - ((N : ℚ) * ((N : ℚ) - 1) / 2) *
            probability_distance_less_than ((low_D + high_D).fdiv 2).toNat
              min_distance then
        searchLoopF N min_distance success_probability fuel low_D
          ((low_D + high_D).fdiv 2 - 1)
      else
        searchLoopF N min_distance success_probability fuel
          ((low_D + high_D).fdiv 2 + 1) high_D
    else low_D

/-- Embeds the inverse mode of `probability_all_vectors_min_distance` from
`analytic_01.py`: binary search with `low_D = min_distance`, `high_D = 1000`,
returning the final `low_D`.  Fuel `1002` exceeds the initial search-window
size, so it never runs out (proved in `searchLoopF_fuel_irrelevant`).  This
is the spec's `requiredDimension`. -/
def requiredDimension (N min_distance : ℕ) (success_probability : ℚ) : ℤ :=
  searchLoopF N min_distance success_probability 1002 (min_distance : ℤ) 1000

/-- Result type of `probability_all_vectors_min_distance`: the Python
function returns either a probability (forward mode) or a dimension
(inverse mode). -/
inductive ModeResult where
  | prob : ℚ → ModeResult
  | dim : ℤ → ModeResult
deriving DecidableEq

/-- Embeds the full dispatch of `probability_all_vectors_min_distance(N, D,
min_distance, success_probability)` from `analytic_01.py`: when
`success_probability is not None` the inverse-mode binary search runs and the
`D` argument is never read (in-repo, `calculate_required_dimensions` passes
`D = None`); otherwise the forward-mode estimate is computed from `D`
(`none` for `D` in that mode is the Python `TypeError`, embedded as `none`). -/
def probability_all_vectors_min_distance (N : ℕ) (D : Option ℕ)
    (min_distance : ℕ) (success_probability : Option ℚ) : Option ModeResult :=
  match success_probability with
  | some tau => some (.dim (requiredDimension N min_distance tau))
  | none => D.map (fun d => .prob (estimateSuccessProbability N d min_distance))

/-- Insertion into a Python dict embedded as an insertion-ordered association
list: assigning to an existing key overwrites in place, a new key is appended
at the end. -/
def dinsert {α β : Type} [DecidableEq α] (k : α) (v : β) :
    List (α × β) → List (α × β)
  | [] => [(k, v)]
  | (k', v') :: rest =>
    if k' = k then (k, v) :: rest else (k', v') :: dinsert k v rest

/-- Key lookup in a Python dict embedded as an association list. -/
def dlookup {α β : Type} [DecidableEq α] (k : α) :
    List (α × β) → Option β
  | [] => none
  | (k', v') :: rest => if k' = k then some v' else dlookup k rest

/-- Embeds `calculate_required_dimensions(N_values, min_distances,
target_probabilities)` from `analytic_01.py`: the triply nested loop
building `results[N][min_dist][prob] = probability_all_vectors_min_distance(
N, None, min_dist, prob)`, whose inverse-mode value is
`requiredDimension N min_dist prob` (see
`probability_all_vectors_min_distance_inverse`).  Dicts are embedded as
insertion-ordered association lists. -/
def calculate_required_dimensions (N_values min_distances : List ℕ)
    (target_probabilities : List ℚ) : List (ℕ × List (ℕ × List (ℚ × ℤ))) :=
  N_values.foldl (fun results N =>
    dinsert N (min_distances.foldl (fun rN min_dist =>
      dinsert min_dist (target_probabilities.foldl (fun rM prob =>
        dinsert prob (requiredDimension N min_dist prob) rM) []) rN) [])
      results) []

/-- Embeds `hamming_distance(v1, v2)` from `sample_2.py`:
`np.sum(v1 != v2)`, the number of coordinate positions where the two
(equal-length) vectors differ. -/
def hamming_distance (v1 v2 : List ℤ) : ℕ :=
  ((v1.zip v2).filter (fun p => decide (p.1 ≠ p.2))).length

/-- Embeds the per-trial success check from `simulate_vector_distinctness`
in `sample.py`: `len(set(tuple(v) for v in vectors)) == N`, i.e. the number
of distinct rows equals the number of rows. -/
def distinct_check (vectors : List (List ℤ)) : Prop :=
  vectors.dedup.length = vectors.length

instance (vectors : List (List ℤ)) : Decidable (distinct_check vectors) :=
  inferInstanceAs (Decidable (_ = _))

/-- Embeds the per-trial success check from `simulate_vector_distinctness`
in `sample_2.py`: for every pair `i < j`,
`hamming_distance(vectors[i], vectors[j]) >= min_distance` (the early
`break`s only short-circuit the computation of this conjunction). -/
def min_distance_check (min_distance : ℕ) (vectors : List (List ℤ)) : Prop :=
  vectors.Pairwise (fun v1 v2 => min_distance ≤ hamming_distance v1 v2)

instance (m : ℕ) (vectors : List (List ℤ)) :
    Decidable (min_distance_check m vectors) :=
  inferInstanceAs (Decidable (List.Pairwise _ _))

/-- Condition tested by each iteration of the inverse-mode binary search:
dimension `d` reaches the target probability.  The loop evaluates exactly
this predicate at `d = mid_D`. -/
def satisfiesTarget (N min_distance : ℕ) (tau : ℚ) (d : ℤ) : Prop :=
  tau ≤ 1 - ((N : ℚ) * ((N : ℚ) - 1) / 2) *
    probability_distance_less_than d.toNat min_distance

/-! ### Helper lemmas about the binomial tail -/

lemma probability_distance_less_than_eq (D m : ℕ) :
    probability_distance_less_than D m
      = ((∑ k in Finset.range m, D.choose k : ℕ) : ℚ) * (1 / 2) ^ D := by
  unfold probability_distance_less_than
  rw [Nat.cast_sum, Finset.sum_mul]

lemma sum_choose_succ_le (D m : ℕ) :
    ∑ k in Finset.range m, (D + 1).choose k
      ≤ 2 * ∑ k in Finset.range m, D.choose k := by
  cases m with
  | zero => simp
  | succ m =>
    have h1 : ∑ k in Finset.range (m + 1), (D + 1).choose k
        = (∑ k in Finset.range m, (D + 1).choose (k + 1)) + (D + 1).choose 0 :=
      Finset.sum_range_succ' _ m
    have h2 : ∑ k in Finset.range (m + 1), D.choose k
        = (∑ k in Finset.range m, D.choose (k + 1)) + D.choose 0 :=
      Finset.sum_range_succ' _ m
    have h4 : ∑ k in Finset.range m, (D + 1).choose (k + 1)
        = (∑ k in Finset.range m, D.choose k)
          + ∑ k in Finset.range m, D.choose (k + 1) := by
      rw [← Finset.sum_add_distrib]
      exact Finset.sum_congr rfl (fun k _ => Nat.choose_succ_succ D k)
    have h5 : ∑ k in Finset.range m, D.choose k
        ≤ ∑ k in Finset.range (m + 1), D.choose k :=
      Finset.sum_le_sum_of_subset (Finset.range_subset.mpr (Nat.le_succ m))
    simp only [Nat.choose_zero_right] at h1 h2
    omega

lemma probability_distance_less_than_succ_le (D m : ℕ) :
    probability_distance_less_than (D + 1) m
      ≤ probability_distance_less_than D m := by
  rw [probability_distance_less_than_eq, probability_distance_less_than_eq]
  have h1 : ((∑ k in Finset.range m, (D + 1).choose k : ℕ) : ℚ)
      ≤ 2 * ((∑ k in Finset.range m, D.choose k : ℕ) : ℚ) := by
    exact_mod_cast sum_choose_succ_le D m
  have h2 : (0 : ℚ) ≤ (1 / 2) ^ (D + 1) := by positivity
  calc ((∑ k in Finset.range m, (D + 1).choose k : ℕ) : ℚ) * (1 / 2) ^ (D + 1)
      ≤ 2 * ((∑ k in Finset.range m, D.choose k : ℕ) : ℚ) * (1 / 2) ^ (D + 1) :=
        mul_le_mul_of_nonneg_right h1 h2
    _ = ((∑ k in Finset.range m, D.choose k : ℕ) : ℚ) * (1 / 2) ^ D := by
        rw [pow_succ]; ring

lemma probability_distance_less_than_antitone (m : ℕ) {D1 D2 : ℕ}
    (h : D1 ≤ D2) :
    probability_distance_less_than D2 m ≤ probability_distance_less_than D1 m := by
  induction D2, h using Nat.le_induction with
  | base => exact le_rfl
  | succ D2 hD ih =>
    exact le_trans (probability_distance_less_than_succ_le D2 m) ih

lemma probability_distance_less_than_nonneg (D m : ℕ) :
    0 ≤ probability_distance_less_than D m := by
  unfold probability_distance_less_than
  apply Finset.sum_nonneg
  intro k _
  positivity

lemma pairs_cast (N : ℕ) :
    ((N.choose 2 : ℕ) : ℚ) = (N : ℚ) * ((N : ℚ) - 1) / 2 :=
  Nat.cast_choose_two ℚ N

lemma pairs_nonneg (N : ℕ) : 0 ≤ (N : ℚ) * ((N : ℚ) - 1) / 2 := by
  rw [← pairs_cast]
  exact Nat.cast_nonneg _

/-! ### Helper lemmas about the inverse-mode binary search -/

lemma satisfiesTarget_mono (N m : ℕ) (tau : ℚ) {d e : ℤ} (hde : d ≤ e)
    (h : satisfiesTarget N m tau d) : satisfiesTarget N m tau e := by
  unfold satisfiesTarget at h ⊢
  have hp : probability_distance_less_than e.toNat m
      ≤ probability_distance_less_than d.toNat m :=
    probability_distance_less_than_antitone m (Int.toNat_le_toNat hde)
  have hc : 0 ≤ (N : ℚ) * ((N : ℚ) - 1) / 2 := pairs_nonneg N
  have := mul_le_mul_of_nonneg_left hp hc
  linarith

lemma fdiv2_bounds {low high : ℤ} (h : low ≤ high) :
    low ≤ (low + high).fdiv 2 ∧ (low + high).fdiv 2 ≤ high := by
  have h1 : 2 * ((low + high).fdiv 2) + (low + high).fmod 2 = low + high :=
    Int.fdiv_add_fmod _ 2
  have h2 : 0 ≤ (low + high).fmod 2 := Int.fmod_nonneg' _ (by norm_num)
  have h3 : (low + high).fmod 2 < 2 := Int.fmod_lt_of_pos _ (by norm_num)
  omega

lemma searchLoopF_exit (N m : ℕ) (tau : ℚ) (fuel : ℕ) {low high : ℤ}
    (h : high < low) : searchLoopF N m tau fuel low high = low := by
  cases fuel with
  | zero => rfl
  | succ fuel => simp only [searchLoopF, if_neg (not_le.mpr h)]

lemma searchLoopF_spec (N m : ℕ) (tau : ℚ) :
    ∀ (fuel : ℕ) (low high : ℤ), (high + 1 - low).toNat ≤ fuel →
      low ≤ high + 1 →
      low ≤ searchLoopF N m tau fuel low high ∧
      searchLoopF N m tau fuel low high ≤ high + 1 ∧
      (∀ d : ℤ, low ≤ d → d < searchLoopF N m tau fuel low high →
        ¬ satisfiesTarget N m tau d) ∧
      (searchLoopF N m tau fuel low high ≤ high →
        satisfiesTarget N m tau (searchLoopF N m tau fuel low high)) := by
  intro fuel
  induction fuel with
  | zero =>
    intro low high hfuel hle
    simp only [searchLoopF]
    refine ⟨le_rfl, hle, ?_, ?_⟩
    · intro d h1 h2
      omega
    · intro h
      exact absurd h (by omega)
  | succ fuel ih =>
    intro low high hfuel hle
    by_cases hlh : low ≤ high
    · obtain ⟨hm1, hm2⟩ := fdiv2_bounds hlh
      by_cases hsat : satisfiesTarget N m tau ((low + high).fdiv 2)
      · have heq : searchLoopF N m tau (fuel + 1) low high
            = searchLoopF N m tau fuel low ((low + high).fdiv 2 - 1) := by
          simp only [searchLoopF, if_pos hlh]
          exact if_pos hsat
        obtain ⟨h1, h2, h3, h4⟩ :=
          ih low ((low + high).fdiv 2 - 1) (by omega) (by omega)
        rw [heq]
        refine ⟨h1, by omega, h3, ?_⟩
        intro _
        by_cases hr2 : searchLoopF N m tau fuel low ((low + high).fdiv 2 - 1)
            ≤ (low + high).fdiv 2 - 1
        · exact h4 hr2
        · have hreq : searchLoopF N m tau fuel low ((low + high).fdiv 2 - 1)
              = (low + high).fdiv 2 := by omega
          rw [hreq]
          exact hsat
      · have heq : searchLoopF N m tau (fuel + 1) low high
            = searchLoopF N m tau fuel ((low + high).fdiv 2 + 1) high := by
          simp only [searchLoopF, if_pos hlh]
          exact if_neg hsat
        obtain ⟨h1, h2, h3, h4⟩ :=
          ih ((low + high).fdiv 2 + 1) high (by omega) (by omega)
        rw [heq]
        refine ⟨by omega, h2, ?_, h4⟩
        intro d hd1 hd2
        by_cases hdm : d ≤ (low + high).fdiv 2
        · intro hds
          exact hsat (satisfiesTarget_mono N m tau hdm hds)
        · exact h3 d (by omega) hd2
    · rw [searchLoopF_exit N m tau (fuel + 1) (by omega)]
      refine ⟨le_rfl, hle, ?_, ?_⟩
      · intro d h1 h2
        omega
      · intro h
        exact absurd h hlh

lemma searchLoopF_fuel_irrelevant (N m : ℕ) (tau : ℚ) :
    ∀ (fuel1 fuel2 : ℕ) (low high : ℤ), (high + 1 - low).toNat ≤ fuel1 →
      fuel1 ≤ fuel2 →
      searchLoopF N m tau fuel1 low high = searchLoopF N m tau fuel2 low high := by
  intro fuel1
  induction fuel1 with
  | zero =>
    intro fuel2 low high hfuel _
    have hlh : high < low := by omega
    rw [searchLoopF_exit N m tau 0 hlh, searchLoopF_exit N m tau fuel2 hlh]
  | succ fuel1 ih =>
    intro fuel2 low high hfuel hf12
    obtain ⟨fuel2', rfl⟩ : ∃ f, fuel2 = f + 1 := ⟨fuel2 - 1, by omega⟩
    by_cases hlh : low ≤ high
    · obtain ⟨hm1, hm2⟩ := fdiv2_bounds hlh
      by_cases hsat : satisfiesTarget N m tau ((low + high).fdiv 2)
      · have heq1 : searchLoopF N m tau (fuel1 + 1) low high
            = searchLoopF N m tau fuel1 low ((low + high).fdiv 2 - 1) := by
          simp only [searchLoopF, if_pos hlh]
          exact if_pos hsat
        have heq2 : searchLoopF N m tau (fuel2' + 1) low high
            = searchLoopF N m tau fuel2' low ((low + high).fdiv 2 - 1) := by
          simp only [searchLoopF, if_pos hlh]
          exact if_pos hsat
        rw [heq1, heq2]
        exact ih fuel2' low ((low + high).fdiv 2 - 1) (by omega) (by omega)
      · have heq1 : searchLoopF N m tau (fuel1 + 1) low high
            = searchLoopF N m tau fuel1 ((low + high).fdiv 2 + 1) high := by
          simp only [searchLoopF, if_pos hlh]
          exact if_neg hsat
        have heq2 : searchLoopF N m tau (fuel2' + 1) low high
            = searchLoopF N m tau fuel2' ((low + high).fdiv 2 + 1) high := by
          simp only [searchLoopF, if_pos hlh]
          exact if_neg hsat
        rw [heq1, heq2]
        exact ih fuel2' ((low + high).fdiv 2 + 1) high (by omega) (by omega)
    · rw [searchLoopF_exit N m tau (fuel1 + 1) (by omega),
        searchLoopF_exit N m tau (fuel2' + 1) (by omega)]

lemma requiredDimension_le_spec (N m : ℕ) (tau : ℚ) :
    (m : ℤ) ≤ requiredDimension N m tau ∧
    requiredDimension N m tau ≤ max (m : ℤ) 1001 ∧
    (∀ d : ℤ, (m : ℤ) ≤ d → d < requiredDimension N m tau →
      ¬ satisfiesTarget N m tau d) ∧
    (requiredDimension N m tau ≤ 1000 →
      satisfiesTarget N m tau (requiredDimension N m tau)) := by
  unfold requiredDimension
  by_cases hm : (m : ℤ) ≤ 1001
  · obtain ⟨h1, h2, h3, h4⟩ :=
      searchLoopF_spec N m tau 1002 (m : ℤ) 1000 (by omega) (by omega)
    exact ⟨h1, le_max_of_le_right (by omega), h3, h4⟩
  · rw [searchLoopF_exit N m tau 1002 (by omega)]
    exact ⟨le_rfl, le_max_left _ _,
      fun d hd1 hd2 => absurd hd2 (not_lt.mpr hd1),
      fun h => absurd h (by omega)⟩

lemma satisfiesTarget_iff_estimate (N m : ℕ) (tau : ℚ) (htau : 0 < tau)
    (d : ℕ) :
    satisfiesTarget N m tau (d : ℤ) ↔ tau ≤ estimateSuccessProbability N d m := by
  unfold satisfiesTarget estimateSuccessProbability
  rw [Int.toNat_natCast, ← pairs_cast, le_max_iff]
  constructor
  · exact Or.inr
  · rintro (h | h)
    · linarith
    · exact h

lemma probability_all_vectors_min_distance_inverse (N : ℕ) (D : Option ℕ)
    (m : ℕ) (tau : ℚ) :
    probability_all_vectors_min_distance N D m (some tau)
      = some (.dim (requiredDimension N m tau)) := rfl

/-! ### Helper lemmas about dict embeddings -/

lemma dlookup_dinsert {α β : Type} [DecidableEq α] (k k' : α) (v : β)
    (d : List (α × β)) :
    dlookup k (dinsert k' v d)
      = if k' = k then some v else dlookup k d := by
  induction d with
  | nil =>
    simp only [dinsert, dlookup]
  | cons hd tl ih =>
    obtain ⟨k2, v2⟩ := hd
    by_cases h2 : k2 = k'
    · subst h2
      by_cases h3 : k2 = k <;> simp [dinsert, dlookup, h3]
    · simp only [dinsert, if_neg h2, dlookup, ih]
      by_cases h3 : k2 = k
      · subst h3
        have h4 : k' ≠ k2 := fun h => h2 h.symm
        simp [h4]
      · simp [h3]

lemma dlookup_foldl_dinsert {α β : Type} [DecidableEq α] (f : α → β)
    (ks : List α) (acc : List (α × β)) (k : α) :
    dlookup k (ks.foldl (fun a x => dinsert x (f x) a) acc)
      = if k ∈ ks then some (f k) else dlookup k acc := by
  induction ks generalizing acc with
  | nil => simp [dlookup]
  | cons hd tl ih =>
    simp only [List.foldl_cons, List.mem_cons]
    by_cases h2 : hd = k
    · subst h2
      simp [ih, dlookup_dinsert]
    · by_cases h1 : k ∈ tl
      · simp [ih, dlookup_dinsert, h1, h2]
      · have h4 : ¬ k = hd := fun h => h2 h.symm
        simp [ih, dlookup_dinsert, h2, h1, h4]

/-! ### Helper lemmas about the Monte Carlo checks -/

lemma hamming_distance_eq_zero_iff {v1 v2 : List ℤ}
    (h : v1.length = v2.length) :
    hamming_distance v1 v2 = 0 ↔ v1 = v2 := by
  induction v1 generalizing v2 with
  | nil =>
    cases v2 with
    | nil => simp [hamming_distance]
    | cons b t2 => simp at h
  | cons a t1 ih =>
    cases v2 with
    | nil => simp at h
    | cons b t2 =>
      have hlen : t1.length = t2.length := by
        simpa using h
      by_cases hab : a = b
      · subst hab
        have hstep : hamming_distance (a :: t1) (a :: t2)
            = hamming_distance t1 t2 := by
          unfold hamming_distance
          rw [List.zip_cons_cons, List.filter_cons_of_neg (by simp)]
        rw [hstep, ih hlen]
        simp
      · have hstep : hamming_distance (a :: t1) (b :: t2)
            = hamming_distance t1 t2 + 1 := by
          unfold hamming_distance
          rw [List.zip_cons_cons, List.filter_cons_of_pos (by simp [hab])]
          simp [Nat.add_comm]
        rw [hstep]
        constructor
        · intro h0
          exact absurd h0 (Nat.succ_ne_zero _)
        · intro he
          injection he with h1 _
          exact absurd h1 hab

/-! ### Characterization of the inverse-mode result -/

lemma requiredDimension_of_sat (N m : ℕ) (tau : ℚ) (h0 : 0 < tau)
    (hex : ∃ d : ℕ, m ≤ d ∧ d ≤ 1000 ∧ tau ≤ estimateSuccessProbability N d m) :
    ∃ dstar : ℕ, requiredDimension N m tau = (dstar : ℤ) ∧
      m ≤ dstar ∧ dstar ≤ 1000 ∧
      tau ≤ estimateSuccessProbability N dstar m ∧
      ∀ d : ℕ, m ≤ d → d < dstar → estimateSuccessProbability N d m < tau := by
  obtain ⟨d0, hd0m, hd0b, hd0s⟩ := hex
  obtain ⟨hr1, hr2, hr3, hr4⟩ := requiredDimension_le_spec N m tau
  have hsat0 : satisfiesTarget N m tau ((d0 : ℕ) : ℤ) :=
    (satisfiesTarget_iff_estimate N m tau h0 d0).mpr hd0s
  have hrle : requiredDimension N m tau ≤ (d0 : ℤ) := by
    by_contra hcon
    push_neg at hcon
    exact hr3 (d0 : ℤ) (by omega) hcon hsat0
  have hr0 : 0 ≤ requiredDimension N m tau := by omega
  refine ⟨(requiredDimension N m tau).toNat, by omega, by omega, by omega, ?_, ?_⟩
  · have hco : (((requiredDimension N m tau).toNat : ℕ) : ℤ)
        = requiredDimension N m tau := by omega
    have hs : satisfiesTarget N m tau
        (((requiredDimension N m tau).toNat : ℕ) : ℤ) := by
      rw [hco]
      exact hr4 (by omega)
    exact (satisfiesTarget_iff_estimate N m tau h0 _).mp hs
  · intro d hdm hdr
    by_contra hcon
    push_neg at hcon
    have hs := (satisfiesTarget_iff_estimate N m tau h0 d).mpr hcon
    exact hr3 (d : ℤ) (by omega) (by omega) hs

lemma requiredDimension_of_unsat (N m : ℕ) (tau : ℚ) (h0 : 0 < tau)
    (hall : ∀ d : ℕ, m ≤ d → d ≤ 1000 → estimateSuccessProbability N d m < tau) :
    requiredDimension N m tau = max (m : ℤ) 1001 := by
  obtain ⟨hr1, hr2, hr3, hr4⟩ := requiredDimension_le_spec N m tau
  have hnot : ¬ requiredDimension N m tau ≤ 1000 := by
    intro hle
    have hs := hr4 hle
    have hr0 : 0 ≤ requiredDimension N m tau := by omega
    have hco : (((requiredDimension N m tau).toNat : ℕ) : ℤ)
        = requiredDimension N m tau := by omega
    rw [← hco] at hs
    have hest := (satisfiesTarget_iff_estimate N m tau h0 _).mp hs
    exact absurd hest (not_le.mpr (hall _ (by omega) (by omega)))
  rcases le_total ((m : ℕ) : ℤ) 1001 with hm | hm
  · have h5 : requiredDimension N m tau ≤ 1001 := by
      rw [max_eq_right hm] at hr2
      exact hr2
    rw [max_eq_right hm]
    omega
  · have h5 : requiredDimension N m tau ≤ ((m : ℕ) : ℤ) := by
      rw [max_eq_left hm] at hr2
      exact hr2
    rw [max_eq_left hm]
    omega

/-! ### Claim theorems -/

/-- Claim C2 (amended): for `N ≥ 2`, `minDistance ≥ 0` and `τ ∈ (0,1)`, if
some `D ∈ [minDistance, 1000]` satisfies `estimateSuccessProbability(N, D,
minDistance) ≥ τ` then `requiredDimension` returns the smallest such `D`;
if no `D` in that range satisfies it, `requiredDimension` returns
`max(minDistance, 1001)` — one past the exhausted search window — and NOT
the fixed upper bound `1000` claimed by the spec (see the counterexample
`requiredDimension_unsat_not_1000`). -/
theorem requiredDimension_characterization (N m : ℕ) (tau : ℚ)
    (hN : 2 ≤ N) (h0 : 0 < tau) (h1 : tau < 1) :
    ((∃ d : ℕ, m ≤ d ∧ d ≤ 1000 ∧ tau ≤ estimateSuccessProbability N d m) →
      ∃ dstar : ℕ, requiredDimension N m tau = (dstar : ℤ) ∧
        m ≤ dstar ∧ dstar ≤ 1000 ∧
        tau ≤ estimateSuccessProbability N dstar m ∧
        ∀ d : ℕ, m ≤ d → d < dstar → estimateSuccessProbability N d m < tau) ∧
    ((∀ d : ℕ, m ≤ d → d ≤ 1000 → estimateSuccessProbability N d m < tau) →
      requiredDimension N m tau = max ((m : ℕ) : ℤ) 1001) :=
  ⟨requiredDimension_of_sat N m tau h0, requiredDimension_of_unsat N m tau h0⟩

/-- Claim C2 counterexample: at `N = 2`, `minDistance = 1`,
`τ = 1 − (1/2)^1100 ∈ (0,1)`, no `D ∈ [1, 1000]` reaches the target (the
best estimate, at `D = 1000`, is `1 − (1/2)^1000 < τ`), yet the code
returns `1001` — not the fixed upper bound `1000` that the claim asserts. -/
theorem requiredDimension_unsat_not_1000 :
    (∀ d : ℕ, 1 ≤ d → d ≤ 1000 →
      estimateSuccessProbability 2 d 1 < 1 - (1 / 2 : ℚ) ^ 1100) ∧
    requiredDimension 2 1 (1 - (1 / 2 : ℚ) ^ 1100) = 1001 := by
  have hall : ∀ d : ℕ, 1 ≤ d → d ≤ 1000 →
      estimateSuccessProbability 2 d 1 < 1 - (1 / 2 : ℚ) ^ 1100 := by
    intro d h1d hd
    have hp : probability_distance_less_than d 1 = (1 / 2 : ℚ) ^ d := by
      unfold probability_distance_less_than
      simp
    have hch : ((2 : ℕ).choose 2 : ℚ) = 1 := by
      norm_num
    unfold estimateSuccessProbability
    rw [hp, hch, one_mul]
    have hlt : (1 / 2 : ℚ) ^ 1100 < (1 / 2 : ℚ) ^ d :=
      pow_lt_pow_right_of_lt_one₀ (by norm_num) (by norm_num) (by omega)
    have hle1 : (1 / 2 : ℚ) ^ d ≤ 1 :=
      pow_le_one₀ (by norm_num) (by norm_num)
    rw [max_eq_right (by linarith)]
    linarith
  have h0 : (0 : ℚ) < 1 - (1 / 2 : ℚ) ^ 1100 := by
    have : (1 / 2 : ℚ) ^ 1100 < 1 :=
      pow_lt_one₀ (by norm_num) (by norm_num) (by norm_num)
    linarith
  have hres := requiredDimension_of_unsat 2 1 (1 - (1 / 2 : ℚ) ^ 1100) h0 hall
  have hmax : max ((1 : ℕ) : ℤ) 1001 = 1001 := by
    rw [max_eq_right]
    norm_num
  exact ⟨hall, by rw [hres, hmax]⟩

/-- Claim C2 witness: a concrete satisfiable instance, `N = 2`,
`minDistance = 0`, `τ = 1/2` (dimension `0` already satisfies the bound, as
the empty binomial tail is `0`). -/
theorem requiredDimension_characterization_witness :
    ∃ dstar : ℕ, requiredDimension 2 0 (1 / 2) = (dstar : ℤ) ∧
      0 ≤ dstar ∧ dstar ≤ 1000 ∧
      (1 / 2 : ℚ) ≤ estimateSuccessProbability 2 dstar 0 ∧
      ∀ d : ℕ, 0 ≤ d → d < dstar →
        estimateSuccessProbability 2 d 0 < 1 / 2 :=
  (requiredDimension_characterization 2 0 (1 / 2) le_rfl (by norm_num)
    (by norm_num)).1
    ⟨0, le_rfl, by norm_num, by
      norm_num [estimateSuccessProbability, probability_distance_less_than]⟩

/-- Claim C3: round trip between inverse and forward mode — whenever some
`D ∈ [minDistance, 1000]` meets the bound, the returned `D*` lies in the
range, `estimateSuccessProbability(N, D*, minDistance) ≥ τ`, and if
`D* > minDistance` then `D* − 1` fails the bound. -/
theorem requiredDimension_roundTrip (N m : ℕ) (tau : ℚ)
    (hN : 2 ≤ N) (h0 : 0 < tau) (h1 : tau < 1)
    (hex : ∃ d : ℕ, m ≤ d ∧ d ≤ 1000 ∧ tau ≤ estimateSuccessProbability N d m) :
    ∃ dstar : ℕ, requiredDimension N m tau = (dstar : ℤ) ∧
      m ≤ dstar ∧ dstar ≤ 1000 ∧
      tau ≤ estimateSuccessProbability N dstar m ∧
      (m < dstar → estimateSuccessProbability N (dstar - 1) m < tau) := by
  obtain ⟨dstar, he, h2, h3, h4, h5⟩ := requiredDimension_of_sat N m tau h0 hex
  exact ⟨dstar, he, h2, h3, h4, fun hlt => h5 (dstar - 1) (by omega) (by omega)⟩

/-- Claim C3 witness: the concrete satisfiable instance `N = 3`,
`minDistance = 0`, `τ = 1/2`. -/
theorem requiredDimension_roundTrip_witness :
    ∃ dstar : ℕ, requiredDimension 3 0 (1 / 2) = (dstar : ℤ) ∧
      0 ≤ dstar ∧ dstar ≤ 1000 ∧
      (1 / 2 : ℚ) ≤ estimateSuccessProbability 3 dstar 0 ∧
      (0 < dstar → estimateSuccessProbability 3 (dstar - 1) 0 < 1 / 2) :=
  requiredDimension_roundTrip 3 0 (1 / 2) (by norm_num) (by norm_num)
    (by norm_num)
    ⟨0, le_rfl, by norm_num, by
      norm_num [estimateSuccessProbability, probability_distance_less_than]⟩

/-- Claim C1: for every `N ≥ 2`, `D ≥ 1`, `0 ≤ minDistance ≤ D`, the
forward-mode estimator returns exactly `max(0, 1 − C(N,2)·p)` where
`C(N,2) = N(N−1)/2` and `p = Σ_{k=0}^{minDistance−1} C(D,k)·(1/2)^D` is the
binomial tail computed by `probability_distance_less_than`. -/
theorem estimateSuccessProbability_eq_unionBound (N D m : ℕ)
    (hN : 2 ≤ N) (hD : 1 ≤ D) (hm : m ≤ D) :
    estimateSuccessProbability N D m
      = max 0 (1 - (N : ℚ) * ((N : ℚ) - 1) / 2 *
          ∑ k in Finset.range m, (D.choose k : ℚ) * (1 / 2) ^ D) := by
  unfold estimateSuccessProbability probability_distance_less_than
  rw [pairs_cast]

/-- Claim C1 witness: the concrete instance `N = 2`, `D = 10`,
`minDistance = 1` (spec concrete scenario 1). -/
theorem estimateSuccessProbability_eq_unionBound_witness :
    estimateSuccessProbability 2 10 1
      = max 0 (1 - (2 : ℚ) * ((2 : ℚ) - 1) / 2 *
          ∑ k in Finset.range 1, ((10 : ℕ).choose k : ℚ) * (1 / 2) ^ 10) := by
  have h := estimateSuccessProbability_eq_unionBound 2 10 1 le_rfl
    (by norm_num) (by norm_num)
  exact_mod_cast h

/-- Claim C4: monotonicity in `D` — for fixed `N ≥ 2` and `minDistance`,
with `minDistance ≤ D1 ≤ D2`, the forward-mode bound is non-decreasing in
the dimension, the invariant justifying the inverse-mode binary search. -/
theorem estimateSuccessProbability_mono_in_D (N D1 D2 m : ℕ)
    (hN : 2 ≤ N) (hm : m ≤ D1) (h12 : D1 ≤ D2) :
    estimateSuccessProbability N D1 m ≤ estimateSuccessProbability N D2 m := by
  unfold estimateSuccessProbability
  have hp := probability_distance_less_than_antitone m h12
  have hc : (0 : ℚ) ≤ (N.choose 2 : ℚ) := Nat.cast_nonneg _
  have hmul := mul_le_mul_of_nonneg_left hp hc
  exact max_le_max le_rfl (by linarith)

/-- Claim C4 witness: the concrete instance `N = 2`, `minDistance = 1`,
`D1 = 1 ≤ D2 = 3`. -/
theorem estimateSuccessProbability_mono_in_D_witness :
    estimateSuccessProbability 2 1 1 ≤ estimateSuccessProbability 2 3 1 :=
  estimateSuccessProbability_mono_in_D 2 1 3 1 le_rfl le_rfl (by norm_num)

/-- Claim C7: for every `D ≥ 0` and `0 ≤ minDistance ≤ D`, the binomial
tail lies in `[0, 1]`, and at `minDistance = 0` it is the empty sum `0`. -/
theorem probability_distance_less_than_bounds (D m : ℕ) (hm : m ≤ D) :
    0 ≤ probability_distance_less_than D m ∧
    probability_distance_less_than D m ≤ 1 ∧
    probability_distance_less_than D 0 = 0 := by
  refine ⟨probability_distance_less_than_nonneg D m, ?_, ?_⟩
  · rw [probability_distance_less_than_eq]
    have h1 : ∑ k in Finset.range m, D.choose k ≤ 2 ^ D := by
      calc ∑ k in Finset.range m, D.choose k
          ≤ ∑ k in Finset.range (D + 1), D.choose k :=
            Finset.sum_le_sum_of_subset (Finset.range_subset.mpr (by omega))
        _ = 2 ^ D := Nat.sum_range_choose D
    have h2 : ((∑ k in Finset.range m, D.choose k : ℕ) : ℚ) ≤ (2 : ℚ) ^ D := by
      exact_mod_cast h1
    have h3 : (0 : ℚ) ≤ (1 / 2) ^ D := by positivity
    calc ((∑ k in Finset.range m, D.choose k : ℕ) : ℚ) * (1 / 2) ^ D
        ≤ (2 : ℚ) ^ D * (1 / 2) ^ D := mul_le_mul_of_nonneg_right h2 h3
      _ = 1 := by
        rw [← mul_pow]
        norm_num
  · unfold probability_distance_less_than
    simp

/-- Claim C7 witness: the concrete instance `D = 5`, `minDistance = 2`. -/
theorem probability_distance_less_than_bounds_witness :
    0 ≤ probability_distance_less_than 5 2 ∧
    probability_distance_less_than 5 2 ≤ 1 ∧
    probability_distance_less_than 5 0 = 0 :=
  probability_distance_less_than_bounds 5 2 (by norm_num)

/-- Claim C9 (implicit): the inverse-mode loop terminates — the search
window shrinks every iteration, so any fuel of at least `1002` (one more
than the largest possible window `[minDistance, 1000]`) yields the same
result as `requiredDimension`, making it a total function of its inputs. -/
theorem searchLoopF_fuel_sufficient (N m : ℕ) (tau : ℚ) (fuel : ℕ)
    (hN : 2 ≤ N) (h0 : 0 < tau) (h1 : tau < 1) (hfuel : 1002 ≤ fuel) :
    searchLoopF N m tau fuel ((m : ℕ) : ℤ) 1000 = requiredDimension N m tau := by
  unfold requiredDimension
  by_cases hm : ((m : ℕ) : ℤ) ≤ 1001
  · exact (searchLoopF_fuel_irrelevant N m tau 1002 fuel ((m : ℕ) : ℤ) 1000
      (by omega) hfuel).symm
  · rw [searchLoopF_exit N m tau fuel (by omega),
      searchLoopF_exit N m tau 1002 (by omega)]

/-- Claim C9 witness: concrete instance with surplus fuel `1003`. -/
theorem searchLoopF_fuel_sufficient_witness :
    searchLoopF 2 1 (3 / 4) 1003 ((1 : ℕ) : ℤ) 1000 = requiredDimension 2 1 (3 / 4) :=
  searchLoopF_fuel_sufficient 2 1 (3 / 4) 1003 le_rfl (by norm_num)
    (by norm_num) (by norm_num)

/-- Claim C10 (implicit): in inverse mode (a target probability supplied),
the result of `probability_all_vectors_min_distance` is independent of its
`D` argument — the parameter is never read on that path (the in-repo sweep
passes `D = None`). -/
theorem inverse_mode_ignores_D (N m : ℕ) (tau : ℚ) (D1 D2 : Option ℕ) :
    probability_all_vectors_min_distance N D1 m (some tau)
      = probability_all_vectors_min_distance N D2 m (some tau) := rfl

/-- Claim C6: for a fixed array of vectors all of length `D`, the
deduplication check of `sample.py` (distinct row count equals row count)
succeeds iff the exhaustive pairwise check of `sample_2.py` with
`min_distance = 1` (every pair at Hamming distance ≥ 1) succeeds. -/
theorem distinct_check_iff_min_distance_check (D : ℕ)
    (vectors : List (List ℤ)) (hlen : ∀ v ∈ vectors, v.length = D) :
    distinct_check vectors ↔ min_distance_check 1 vectors := by
  unfold distinct_check min_distance_check
  constructor
  · intro h
    have hnd : vectors.Nodup := by
      have h2 := vectors.dedup_sublist
      have h3 : vectors.dedup = vectors := h2.eq_of_length h
      rw [← h3]
      exact vectors.nodup_dedup
    exact List.Pairwise.imp_of_mem
      (fun ha hb hne => by
        have h1 := hlen _ ha
        have h2 := hlen _ hb
        have hz : hamming_distance _ _ ≠ 0 := fun h0 =>
          hne ((hamming_distance_eq_zero_iff (h1.trans h2.symm)).mp h0)
        omega) hnd
  · intro h
    have hnd : vectors.Nodup := by
      refine List.Pairwise.imp_of_mem ?_ h
      intro a b ha hb h1 heq
      subst heq
      have hz : hamming_distance a a = 0 :=
        (hamming_distance_eq_zero_iff rfl).mpr rfl
      omega
    rw [List.dedup_eq_self.mpr hnd]

/-- Claim C6 witness: a concrete pair of length-2 bipolar vectors on which
both checks succeed. -/
theorem distinct_check_iff_min_distance_check_witness :
    (∀ v ∈ [[(1 : ℤ), -1], [1, 1]], v.length = 2) ∧
    (distinct_check [[(1 : ℤ), -1], [1, 1]]
      ↔ min_distance_check 1 [[(1 : ℤ), -1], [1, 1]]) :=
  ⟨by decide, distinct_check_iff_min_distance_check 2 _ (by decide)⟩

/-- Claim C5 counterexample: the invalid call `N = 1` (the claim demands
`N ≥ 2` be rejected with a validation failure) is accepted by
`estimateSuccessProbability` and computes the ordinary numeric result `1`
(`comb(1,2) = 0` pairs): no operation rejects at the boundary. -/
theorem no_validation_counterexample :
    estimateSuccessProbability 1 10 1 = 1 := by
  unfold estimateSuccessProbability
  have h : (1 : ℕ).choose 2 = 0 := by decide
  rw [h]
  norm_num

/-- Claim C5 (amended): the deterministic operations perform NO parameter
validation — invalid combinations are accepted and the computation proceeds
to a numeric result: `N = 0 < 2` still yields a success probability (`1`),
`minDistance = 5 > D = 2` still yields a tail value (`1`), and target
probabilities outside `(0,1)` still drive the inverse-mode search to a
dimension (`2 > 1` is unattainable, giving `1001`; `−1 ≤ 0` is satisfied
immediately, giving the lower bound `0`). -/
theorem operations_accept_invalid_inputs :
    estimateSuccessProbability 0 10 1 = 1 ∧
    probability_distance_less_than 2 5 = 1 ∧
    requiredDimension 2 0 2 = 1001 ∧
    requiredDimension 2 0 (-1) = 0 := by
  refine ⟨?_, ?_, ?_, ?_⟩
  · unfold estimateSuccessProbability
    have h : (0 : ℕ).choose 2 = 0 := by decide
    rw [h]
    norm_num
  · unfold probability_distance_less_than
    have hc0 : (2 : ℕ).choose 0 = 1 := by decide
    have hc1 : (2 : ℕ).choose 1 = 2 := by decide
    have hc2 : (2 : ℕ).choose 2 = 1 := by decide
    have hc3 : (2 : ℕ).choose 3 = 0 := by decide
    have hc4 : (2 : ℕ).choose 4 = 0 := by decide
    rw [Finset.sum_range_succ, Finset.sum_range_succ, Finset.sum_range_succ,
      Finset.sum_range_succ, Finset.sum_range_succ, Finset.sum_range_zero,
      hc0, hc1, hc2, hc3, hc4]
    norm_num
  · have hall : ∀ d : ℕ, 0 ≤ d → d ≤ 1000 →
        estimateSuccessProbability 2 d 0 < 2 := by
      intro d _ _
      unfold estimateSuccessProbability probability_distance_less_than
      norm_num
    have hres := requiredDimension_of_unsat 2 0 2 (by norm_num) hall
    rw [hres]
    norm_num
  · obtain ⟨hr1, hr2, hr3, hr4⟩ := requiredDimension_le_spec 2 0 (-1)
    by_contra hne
    have hlt : (0 : ℤ) < requiredDimension 2 0 (-1) := by
      push_neg at hne
      omega
    have hsat : satisfiesTarget 2 0 (-1) 0 := by
      unfold satisfiesTarget probability_distance_less_than
      norm_num
    exact hr3 0 (by omega) hlt hsat

/-- Claim C8: the sweep builds exactly one entry per combination — looking
up `(N, minDist, prob)` in the nested mapping returned by
`calculate_required_dimensions` yields `requiredDimension N minDist prob`
when each key comes from the respective input sequence, and nothing
otherwise (no other entries, no other effects). -/
theorem calculate_required_dimensions_lookup (Ns ms : List ℕ)
    (taus : List ℚ) (N m : ℕ) (tau : ℚ) :
    (dlookup N (calculate_required_dimensions Ns ms taus)).bind
        (fun t => (dlookup m t).bind (fun t2 => dlookup tau t2))
      = if N ∈ Ns ∧ m ∈ ms ∧ tau ∈ taus
          then some (requiredDimension N m tau) else none := by
  unfold calculate_required_dimensions
  rw [dlookup_foldl_dinsert]
  by_cases hN : N ∈ Ns
  · rw [if_pos hN]
    simp only [Option.some_bind]
    rw [dlookup_foldl_dinsert]
    by_cases hm : m ∈ ms
    · rw [if_pos hm]
      simp only [Option.some_bind]
      rw [dlookup_foldl_dinsert]
      by_cases ht : tau ∈ taus
      · rw [if_pos ht, if_pos ⟨hN, hm, ht⟩]
      · rw [if_neg ht, if_neg (by tauto)]
        simp [dlookup]
    · rw [if_neg hm, if_neg (by tauto)]
      simp [dlookup]
  · rw [if_neg hN, if_neg (by tauto)]
    simp [dlookup]
